import Mathlib

/-!
Verification of the wit version-control engine (hashing.py, witmanager.py, wit.py)
against its natural-language specification.

The Python source is shallowly embedded: file contents are Lean `String`s,
byte buffers are `List Nat`, directory trees are association lists from
relative path to content (kept in on-disk enumeration order, since `os.walk`
order is observable), and the BLAKE2b digest is a parameter
`hash : List Nat → String` (the real digest is a fixed pure function of the
byte stream; claims about digest equality/inequality are settled on the byte
stream fed to it, and concrete evaluations instantiate the parameter).
Fallible Python code (IndexError, reading a missing file, `None` propagation)
is embedded with `Option`.
-/

namespace Wit

/-- Association-list lookup with a default, modelling reading the file at a
relative path inside a directory (first match wins; walked trees have unique
relative paths). -/
def lookupD (l : List (String × String)) (k : String) (d : String) : String :=
  match l.find? (fun pc => pc.1 == k) with
  | some pc => pc.2
  | none => d

/-- Lookup of a commit snapshot in the images store.  A missing directory is
walked by `os.walk` as empty (it yields nothing, raising no error), hence the
empty default. -/
def lookupSnap (images : List (String × List (String × String))) (k : String) :
    List (String × String) :=
  match images.find? (fun pc => pc.1 == k) with
  | some pc => pc.2
  | none => []

/-- Bytes of a string, modelling Python `str.encode` (code points; the model
inputs are ASCII). -/
def strBytes (s : String) : List Nat :=
  s.data.map Char.toNat

/-- Python `needle in hay` on lists (contiguous-sublist containment). -/
def startsWithL : List Char → List Char → Bool
  | [], _ => true
  | _ :: _, [] => false
  | a :: la, b :: lb => a == b && startsWithL la lb

/-- Python substring containment `needle in hay`. -/
def containsSub (needle : List Char) : List Char → Bool
  | [] => startsWithL needle []
  | c :: rest => startsWithL needle (c :: rest) || containsSub needle rest

/-- Python `needle in hay` for strings. -/
def containsStr (needle hay : String) : Bool :=
  containsSub needle.data hay.data

/-- Worker for `pySplitlines`: accumulates the current line (reversed). -/
def pySplitAux (acc : List Char) : List Char → List String
  | [] => if acc.isEmpty then [] else [String.mk acc.reverse]
  | c :: cs =>
    if c == '\n' then String.mk acc.reverse :: pySplitAux [] cs
    else pySplitAux (c :: acc) cs

/-- Python `str.splitlines` for newline-separated text: lines between
newline characters, with no empty trailing entry for text ending in a
newline. -/
def pySplitlines (s : String) : List String :=
  pySplitAux [] s.data

/-!
## ContentAddresser: Hashing.by_path / Hashing.by_content (hashing.py)

`by_path` writes every file yielded by `os.walk(path)` into a zip archive via
`archive.write(filename)` (no `arcname`), then hashes the archive bytes with
BLAKE2b.  `ZipFile.write` with a default arcname stores the *given* path with
the drive and leading separators removed, so the archived entry names embed
the directory's absolute location, and the entries appear in `os.walk` order.
The archive byte stream is modelled as the concatenation of
length-prefixed (stored name, raw content) records — a zip local file header
contains exactly the entry name (with its length) followed by the file data.
Timestamps stored by zip are omitted: they only add further nondeterminism,
so every inequality proved on this stream also holds for the real stream.
-/

/-- Serialization of one archive entry: length-prefixed stored name, then
length-prefixed content (mirrors a zip local file header plus file data). -/
def serializeEntry (e : String × List Nat) : List Nat :=
  e.1.length :: strBytes e.1 ++ e.2.length :: e.2

/-- The ordered byte stream of the archive built by `Hashing.by_path`. -/
def zipStream (entries : List (String × List Nat)) : List Nat :=
  (entries.map serializeEntry).flatten

/-- Leading path separators removed, as `ZipFile.write` does to derive the
stored arcname from the given filename. -/
def stripSep (s : String) : String :=
  String.mk (s.data.dropWhile (fun c => c == '/'))

/-- Entries of the archive for a tree rooted at the absolute path `root`
holding `files` (relative path, content) in `os.walk` enumeration order:
`WitManager.get_path_files` yields `os.path.join(dirpath, filename)`, i.e.
the full path. -/
def walkEntries (root : String) (files : List (String × String)) :
    List (String × List Nat) :=
  files.map (fun pc => (stripSep root ++ "/" ++ pc.1, strBytes pc.2))

/-- `Hashing.by_path`: fingerprint of the archive stream of the tree at
`root`, with the BLAKE2b digest as parameter `hash`. -/
def by_path (hash : List Nat → String) (root : String)
    (files : List (String × String)) : String :=
  hash (zipStream (walkEntries root files))

/-- `Hashing.by_content` applied to a text file content (encode, then
digest), with the digest as parameter. -/
def by_content (hash : List Nat → String) (s : String) : String :=
  hash (strBytes s)

/-- A concrete stand-in digest used to evaluate the model on closed inputs:
a decimal rendering of a rolling checksum of the stream.  (Where a theorem
needs digest inequality it is discharged on this stand-in after the streams
themselves are shown unequal.) -/
def hash0 (l : List Nat) : String :=
  Nat.repr (l.foldl (fun a n => (a * 257 + n + 1) % 1000000007) 0)

/-!
## DiffEngine: WitStatus.compare_two_list_files (witmanager.py)

For each path of the candidate list: absent from the baseline list means
untracked; present means both contents are read and their `by_content`
digests compared, a mismatch meaning changed.  Classification uses only the
candidate side (deletions are invisible).  The model passes the candidate
tree as (path, content) pairs and the baseline as pairs looked up by path;
`compare_files_contents` (the read of both files) is the lookup itself.
-/

/-- `WitStatus.compare_two_list_files`: returns (changed, untracked) in
candidate enumeration order. -/
def compare_two_list_files (hash : List Nat → String)
    (addPairs basePairs : List (String × String)) :
    List String × List String :=
  match addPairs with
  | [] => ([], [])
  | pc :: rest =>
    let r := compare_two_list_files hash rest basePairs
    if (basePairs.map Prod.fst).contains pc.1 then
      if by_content hash pc.2 != by_content hash (lookupD basePairs pc.1 "") then
        (pc.1 :: r.1, r.2)
      else r
    else (r.1, pc.1 :: r.2)

/-!
## MergeEngine conflict check: WitStatus.compare_changed_files_by_lines

With an ancestor directory, each listed file is scanned line-by-line: at each
index of the first side's lines, the second side's and the ancestor's line at
the same index are read (an out-of-range index raises IndexError, modelled as
`none`); if both sides differ from the ancestor line the function returns
False at once.  WITHOUT an ancestor (the `both_untracked` check), the loop
body ends in `return first_content == second_content`, so only the first
listed file is ever examined — the source returns after one iteration.
-/

/-- Line scan of one file against the ancestor: `some true` when a conflict
index exists, `none` when the second or ancestor side runs out of lines
before the first (Python IndexError). -/
def conflictScan : List String → List String → List String → Option Bool
  | [], _, _ => some false
  | _ :: _, [], _ => none
  | _ :: _, _ :: _, [] => none
  | f :: fs, s :: ss, a :: la =>
    if f != a && s != a then some true else conflictScan fs ss la

/-- `WitStatus.compare_changed_files_by_lines`.  `firstM`, `secondM`, `ancM`
hold the contents of the three directories; `anc` says whether an ancestor
directory was supplied.  Result `some b` is the Python return value, `none`
an uncaught IndexError. -/
def compare_changed_files_by_lines
    (firstM secondM ancM : List (String × String)) (anc : Bool) :
    List String → Option Bool
  | [] => some true
  | f :: rest =>
    let fc := lookupD firstM f ""
    let sc := lookupD secondM f ""
    if anc then
      match conflictScan (pySplitlines fc) (pySplitlines sc)
          (pySplitlines (lookupD ancM f "")) with
      | none => none
      | some true => some false
      | some false => compare_changed_files_by_lines firstM secondM ancM anc rest
    else
      some (fc == sc)

/-!
## MergeEngine reconciliation: WitStatus.file_after_merge

Iterates the first (other/branch) side's lines; at each index reads the
second (current/HEAD) side's line and the ancestor's line (IndexError when
either is shorter, modelled as `none`); emits the first-side line when it
differs from the ancestor line, the second-side line otherwise, each with a
newline appended; finally appends the remaining second-side lines joined by
newlines.
-/

/-- Recursive core of `file_after_merge` on the three line lists. -/
def mergeScan : List String → List String → List String → Option String
  | [], sl, _ => some (String.intercalate "\n" sl)
  | _ :: _, [], _ => none
  | _ :: _, _ :: _, [] => none
  | f :: fs, s :: ss, a :: la =>
    match mergeScan fs ss la with
    | none => none
    | some r => some ((if f != a then f else s) ++ "\n" ++ r)

/-- `WitStatus.file_after_merge` on the contents of the three versions of one
file (first = other/branch side, second = current/HEAD side, ancestor =
merge base), the directory reads elided into the passed contents. -/
def file_after_merge (firstC secondC ancC : String) : Option String :=
  mergeScan (pySplitlines firstC) (pySplitlines secondC) (pySplitlines ancC)

/-- Independent zip of three lists used to state what the merge produces. -/
def zip3With (g : String → String → String → String) :
    List String → List String → List String → List String
  | [], _, _ => []
  | _, [], _ => []
  | _, _, [] => []
  | a :: la, b :: lb, c :: lc => g a b c :: zip3With g la lb lc

/-!
## ReferenceStore: references.txt and activated.txt (witmanager.py)

The references file is a list of lines `name=fingerprint`.  `refs = none`
models a repository whose references file does not exist yet (before the
first commit).
-/

/-- `WitManager.get_commit_id(line)`: the last line starting with the given
prefix, with the prefix removed; `None` when the file does not exist or no
line matches.  (The source scans forward keeping the last match; the model
searches the reversed list.) -/
def get_commit_id (refs : Option (List String)) (line : String) : Option String :=
  match refs with
  | none => none
  | some lines =>
    match lines.reverse.find? (fun l => startsWithL line.data l.data) with
    | some l => some (String.mk (l.data.drop line.length))
    | none => none

/-- Python `str.rpartition` first component for separator `=`: everything
before the last `=`, or the empty string when there is none. -/
def rpartBefore (s : String) : String :=
  match s.data.reverse.dropWhile (fun c => c != '=') with
  | [] => ""
  | _ :: rest => String.mk rest.reverse

/-- `WitManager.get_all_branches`: the part of each references line before
its last `=` (the first entry is the `HEAD` pseudo-branch). -/
def branch_names (lines : List String) : List String :=
  lines.map rpartBefore

/-- `WitEditor.update_references_file(commit_id, is_branch)`.  A missing
references file is initialized with `HEAD` and `master` bound to the new
fingerprint.  Otherwise the `HEAD` line is rewritten and each remaining line
is rewritten to `<activated>=<commit_id>` exactly when `is_branch` holds and
the line contains the activated branch name AND the previous `HEAD`
fingerprint as substrings (Python `in`); other lines pass through.  When the
file exists but holds no `HEAD` line the source would evaluate
`None in line` (a TypeError) on the first line containing the branch name;
that corner is modelled as failure (`none`) — every reachable references
file has a `HEAD` line. -/
def update_references_file (refs : Option (List String))
    (activated commit_id : String) (is_branch : Bool) : Option (List String) :=
  match refs with
  | none => some ["HEAD=" ++ commit_id, "master=" ++ commit_id]
  | some lines =>
    match get_commit_id (some lines) "HEAD=" with
    | none => none
    | some h =>
      some (("HEAD=" ++ commit_id) ::
        (lines.drop 1).map (fun l =>
          if is_branch && containsStr activated l && containsStr h l then
            activated ++ "=" ++ commit_id
          else l))

/-- A references line for a (branch name, fingerprint) pair. -/
def lineOf (nf : String × String) : String :=
  nf.1 ++ "=" ++ nf.2

/-- Modelled from the spec: the `record_commit` rewrite rule exactly as
claim C7 states it, for refinement comparison with `update_references_file`
— the `HEAD` line is rewritten to the new fingerprint, the activated
branch's line is rewritten only for a normal (non-branch-override) commit
whose prior binding equals the previous `HEAD`, and every other line passes
through unchanged. -/
def record_commit_spec (branchPairs : List (String × String))
    (activated prevHead commit_id : String) (override : Bool) : List String :=
  ("HEAD=" ++ commit_id) :: branchPairs.map (fun nf =>
    if !override && nf.1 == activated && nf.2 == prevHead then
      activated ++ "=" ++ commit_id
    else lineOf nf)

/-!
## Repository state and the commit / checkout / add operations (wit.py)

A repository state holds the working tree (user files, relative to the
repository root, in enumeration order), the staging area, the images store
(fingerprint → snapshot), the commit metadata records (fingerprint →
parents and message; the timestamp line is omitted, no claim mentions it),
the references file and the activated branch name.  The repository root is
the fixed absolute path `/r`, so the staging area zipped by commit is rooted
at `r/.wit/staging_area`.  Operations return `none` for an uncaught Python
exception.
-/

/-- Commit metadata record (`images/<fingerprint>.txt` minus the date). -/
structure CommitMeta where
  parents : List String
  message : String
deriving DecidableEq

/-- The on-disk repository state. -/
structure RepoState where
  working : List (String × String)
  stage : List (String × String)
  images : List (String × List (String × String))
  metaOf : List (String × CommitMeta)
  refs : Option (List String)
  activated : String
deriving DecidableEq

/-- Stored-name root of the staging area inside the zip stream hashed by
commit (`/r/.wit/staging_area` with the leading separator stripped). -/
def stageRoot : String := "r/.wit/staging_area"

/-- Insert-or-replace of one file in a directory listing (`shutil.copy2`
into a walked tree: overwrite in place, or create at the end). -/
def upsert : List (String × String) → String → String → List (String × String)
  | [], k, v => [(k, v)]
  | pc :: rest, k, v =>
    if pc.1 == k then (k, v) :: rest else pc :: upsert rest k v

/-- `init()` followed by the user creating `files`: empty stage, no images,
no references file, activated branch `master`. -/
def wit_init (files : List (String × String)) : RepoState :=
  ⟨files, [], [], [], none, "master"⟩

/-- `add(path)` for a single file at the repository root (the
`os.path.isfile` branch with `rel_path == i`.e. the root): copy the working
file into the staging area under its own name. -/
def add_root_file (name : String) (s : RepoState) : RepoState :=
  { s with stage := upsert s.stage name (lookupD s.working name "") }

/-- The user editing a working-tree file (the working tree is read/written
directly by the user, outside the system). -/
def edit_file (name content : String) (s : RepoState) : RepoState :=
  { s with working := upsert s.working name content }

/-- Rendered content of `images/<fingerprint>.txt` (date line omitted). -/
def metaContent (m : CommitMeta) : String :=
  "parent=" ++ String.intercalate "," m.parents ++ "\nmessage=" ++ m.message

/-- Content of references.txt: each line written with a trailing newline. -/
def joinRefLines (lines : List String) : String :=
  String.join (lines.map (fun l => l ++ "\n"))

/-- Every file under the reserved `.wit` directory, as (path relative to the
repository root, content) pairs: the staging-area mirror, each image
snapshot, each metadata record, the references file and the activated-branch
file.  `os.walk` from the repository root enumerates all of them (nothing
excludes `.wit`); the relative order of the groups is fixed arbitrarily. -/
def witPairs (s : RepoState) : List (String × String) :=
  s.stage.map (fun pc => (".wit/staging\x5farea/" ++ pc.1, pc.2)) ++
  (s.images.map (fun ims =>
    ims.2.map (fun pc => (".wit/images/" ++ ims.1 ++ "/" ++ pc.1, pc.2)))).flatten ++
  s.metaOf.map (fun im => (".wit/images/" ++ im.1 ++ ".txt", metaContent im.2)) ++
  (match s.refs with
   | some lines => [(".wit/references.txt", joinRefLines lines)]
   | none => []) ++
  [(".wit/activated.txt", s.activated)]

/-- The full enumeration of the repository root (`WitStatus.original_files`
with contents): the user's files followed by everything under `.wit`. -/
def fullRootPairs (s : RepoState) : List (String × String) :=
  s.working ++ witPairs s

/-- Outcome of `commit`. -/
inductive CommitResult where
  | created (id : String)
  | duplicate (id : String)
deriving DecidableEq

/-- `commit(message, branch_id)`: fingerprint the staging area; if an images
entry with that fingerprint already exists, log and do nothing else (the
`FileExistsError` branch); otherwise write the metadata record (parents =
previous `HEAD`, plus `branch_id` for a merge commit; a missing `HEAD`
renders as the string None), copy the staging area into the images store and
update the references file (always with `is_branch = True` — the call site
passes no second argument). -/
def commit (hash : List Nat → String) (message : String)
    (branch_id : Option String) (s : RepoState) :
    Option (RepoState × CommitResult) :=
  let commit_id := by_path hash stageRoot s.stage
  if (s.images.map Prod.fst).contains commit_id then
    some (s, CommitResult.duplicate commit_id)
  else
    let parents :=
      match branch_id with
      | none => [(get_commit_id s.refs "HEAD=").getD "None"]
      | some b => [(get_commit_id s.refs "HEAD=").getD "None", b]
    match update_references_file s.refs s.activated commit_id true with
    | none => none
    | some refs2 =>
      some ({ s with
                images := s.images ++ [(commit_id, s.stage)],
                metaOf := s.metaOf ++ [(commit_id, ⟨parents, message⟩)],
                refs := some refs2 },
            CommitResult.created commit_id)

/-- `changes_to_be_committed` of WitStatus: changed then untracked between
the staging area and the last commit's snapshot. -/
def changes_to_be_committed (hash : List Nat → String) (s : RepoState)
    (lastId : String) : List String :=
  let pr := compare_two_list_files hash s.stage (lookupSnap s.images lastId)
  pr.1 ++ pr.2

/-- The working-tree-versus-stage comparison used by `status` and
`checkout`: candidate = the full enumeration of the repository root
(including `.wit`), baseline = the staging area. -/
def working_tree_status (hash : List Nat → String) (s : RepoState) :
    List String × List String :=
  compare_two_list_files hash (fullRootPairs s) s.stage

/-- The untracked list printed by `status`. -/
def status_untracked (hash : List Nat → String) (s : RepoState) :
    List String :=
  (working_tree_status hash s).2

/-- Outcome of `checkout`. -/
inductive CheckoutResult where
  | blocked (paths : List String)
  | ok
deriving DecidableEq

/-- The string `copy_tree` tests against the ignore list:
`os.path.join(rel_path, filename)` where
`rel_path = os.path.relpath(dirpath, rel)`.  For a file in a subdirectory
this equals the file's relative path (`sub/f`); for a top-level file
`rel_path` is the dot directory, so the joined form is `./f` — which never
equals the bare relative names produced by the file enumeration. -/
def joinWalkRel (p : String) : String :=
  if p.data.contains '/' then p else "./" ++ p

/-- `WitEditor.copy_tree(src, dst, rel, ignore_files)` applied to a commit
snapshot copied over a directory listing: each snapshot file overwrites (or
creates) the destination file unless its `os.path.join(rel_path, filename)`
form is in the ignore list — so for top-level files the test compares
`./name` against the ignore entries and never fires, while for files inside
subdirectories it compares the relative path itself; skipped and absent
paths are untouched, nothing is deleted.  (An empty ignore list copies
everything, as the source's `not ignore_files or ...` guard does.) -/
def copy_tree_update (snap : List (String × String)) (ignore : List String)
    (working : List (String × String)) : List (String × String) :=
  snap.foldl
    (fun w pc =>
      if ignore.contains (joinWalkRel pc.1) then w else upsert w pc.1 pc.2)
    working

/-- `checkout(commit_id)`.  A repository without a references file or
without a `HEAD` line crashes inside WitStatus (modelled `none`).  When the
working-tree changed list or changes-to-be-committed is non-empty, only a
warning naming those paths is emitted and nothing is mutated.  Otherwise the
target is resolved (a known branch name is activated first and resolved to
its binding — an unbound branch lookup crashes), the snapshot is copied over
the working tree ignoring the untracked list, the staging area is replaced
by the snapshot, and the references file is updated with
`is_branch = (target was a branch name)`. -/
def checkout (hash : List Nat → String) (target : String) (s : RepoState) :
    Option (RepoState × CheckoutResult) :=
  match s.refs with
  | none => none
  | some lines =>
    match get_commit_id (some lines) "HEAD=" with
    | none => none
    | some lastId =>
      let ctbc := changes_to_be_committed hash s lastId
      let wt := working_tree_status hash s
      if wt.1 ≠ [] ∨ ctbc ≠ [] then
        some (s, CheckoutResult.blocked (wt.1 ++ ctbc))
      else
        let isBr := ((branch_names lines).drop 1).contains target
        let act2 := if isBr then target else s.activated
        match (if isBr then get_commit_id (some lines) (target ++ "=")
               else some target) with
        | none => none
        | some tid =>
          match update_references_file (some lines) act2 tid isBr with
          | none => none
          | some refs2 =>
            let snap := lookupSnap s.images tid
            some ({ s with
                      working := copy_tree_update snap wt.2 s.working,
                      stage := snap,
                      refs := some refs2,
                      activated := act2 },
                  CheckoutResult.ok)

/-!
## AncestryWalker: build_path_tree and the merge base (witmanager.py)

`get_lowest_common_ancestor` builds, for each side, the ancestor trace from
`build_graph_tree(param=None, com_len=COMMIT_ID_LENGTH,
include_branches=False)` — which is `build_path_tree` seeded with the one
start fingerprint and an empty ordered dict — and returns the first key of
the HEAD-side trace that is also a key of the other trace.  With the full
`com_len` the `[:com_len]` truncations are identities and with
`include_branches=False` no branch labels are inserted, so neither is
modelled.  The parent list of the root commit is the single sentinel string
None.  `build_path_tree` processes the first non-sentinel entry of its
worklist, records an edge to each of its parents, and recurses on the parent
list; recursion depth is bounded by a fuel parameter (the source recurses
unboundedly and terminates because histories are finite and acyclic). -/

/-- `WitManager.get_parents_of_a_file`: the comma-split parent line of the
metadata record; a missing record crashes (`none`). -/
def get_parents_of_a_file (pm : List (String × List String)) (cid : String) :
    Option (List String) :=
  (pm.find? (fun im => im.1 == cid)).map Prod.snd

/-- `graph_dict[k].append(v)` on an insertion-ordered dict. -/
def appendEdge (g : List (String × List String)) (k v : String) :
    List (String × List String) :=
  if (g.map Prod.fst).contains k then
    g.map (fun kv => if kv.1 == k then (kv.1, kv.2 ++ [v]) else kv)
  else g ++ [(k, [v])]

/-- One edge per parent, in parent order. -/
def appendEdges (g : List (String × List String)) (k : String)
    (vs : List String) : List (String × List String) :=
  vs.foldl (fun g2 v => appendEdge g2 k v) g

/-- `WitStatus.build_path_tree` (include_branches = False, full label
length): stop when the worklist is all sentinels, otherwise expand the first
non-sentinel commit and recurse on its parents. -/
def build_path_tree (pm : List (String × List String)) (fuel : Nat)
    (ids : List String) (g : List (String × List String)) :
    Option (List (String × List String)) :=
  match fuel with
  | 0 => none
  | fuel2 + 1 =>
    if ids.all (fun c => c == "None") then some g
    else
      match ids.find? (fun c => c != "None") with
      | none => none
      | some c =>
        match get_parents_of_a_file pm c with
        | none => none
        | some ps => build_path_tree pm fuel2 ps (appendEdges g c ps)

/-- `WitStatus.lowest_common_ancestor_dicts`: the first key of the first
dict that is a key of the second; `None` when there is none. -/
def lowest_common_ancestor_dicts :
    List (String × List String) → List (String × List String) → Option String
  | [], _ => none
  | kv :: rest, d2 =>
    if (d2.map Prod.fst).contains kv.1 then some kv.1
    else lowest_common_ancestor_dicts rest d2

/-- `WitStatus.get_lowest_common_ancestor` for HEAD fingerprint `headId` and
the other side `branchId`. -/
def get_lowest_common_ancestor (pm : List (String × List String))
    (fuel : Nat) (headId branchId : String) : Option (Option String) :=
  match build_path_tree pm fuel [headId] [] with
  | none => none
  | some t1 =>
    match build_path_tree pm fuel [branchId] [] with
    | none => none
    | some t2 => some (lowest_common_ancestor_dicts t1 t2)

/-!
## Concrete evaluation states for the claim instances
-/

/-- A state with one committed, staged and clean file but a dirty working
tree (`f` edited to `y` after staging `x`). -/
def c5_s : RepoState :=
  ⟨[("f", "y")], [("f", "x")], [("c1", [("f", "x")])],
   [("c1", ⟨["None"], "m"⟩)], some ["HEAD=c1", "master=c1"], "master"⟩

/-- A clean state whose images store holds the current commit `c1` (only
`g`) and an older commit `c0` (`sub/f` and `g`); the subdirectory file
`sub/f` exists in the working tree with content `new` but is not staged, so
it is untracked. -/
def c6_s : RepoState :=
  ⟨[("g", "z"), ("sub/f", "new")], [("g", "z")],
   [("c1", [("g", "z")]), ("c0", [("sub/f", "old"), ("g", "z")])],
   [("c1", ⟨["None"], "m"⟩), ("c0", ⟨["None"], "m0"⟩)],
   some ["HEAD=c1", "master=c1"], "master"⟩

/-- A clean one-commit state used to exercise a successful checkout. -/
def c6w_s : RepoState :=
  ⟨[("f", "x")], [("f", "x")],
   [("c1", [("f", "x")]), ("c0", [("f", "old"), ("g", "z")])],
   [("c1", ⟨["None"], "m"⟩), ("c0", ⟨["None"], "m0"⟩)],
   some ["HEAD=c1", "master=c1"], "master"⟩

/-- A one-commit state (HEAD = master = h0) with a staged file, from which
a branch-override commit is issued. -/
def c7_s0 : RepoState :=
  ⟨[("f", "x")], [("f", "x")], [], [], some ["HEAD=h0", "master=h0"],
   "master"⟩

/-- The fingerprint the model commit computes for the stage `f ↦ x`. -/
def c7_cid : String := by_path hash0 stageRoot [("f", "x")]

/-- Fresh repository on a working tree holding f.txt ↦ hello. -/
def c8_s0 : RepoState := wit_init [("f.txt", "hello")]

/-- Fingerprint of the first commit of the C8 trace. -/
def c8_c1 : String := by_path hash0 stageRoot [("f.txt", "hello")]

/-- Fingerprint of the second commit of the C8 trace. -/
def c8_c2 : String := by_path hash0 stageRoot [("f.txt", "bye")]

/-- The C8 trace: init; add f.txt; commit; edit f.txt; add; commit;
checkout of the first commit's raw fingerprint. -/
def c8_final : Option RepoState :=
  match commit hash0 "first" none (add_root_file "f.txt" c8_s0) with
  | none => none
  | some pr1 =>
    match commit hash0 "second" none
        (add_root_file "f.txt" (edit_file "f.txt" "bye" pr1.1)) with
    | none => none
    | some pr2 =>
      match checkout hash0 c8_c1 pr2.1 with
      | none => none
      | some pr3 => some pr3.1

/-- A one-commit state used as the pre-state of the first C9 commit. -/
def c9_s : RepoState := ⟨[("f", "x")], [("f", "x")], [], [], none, "master"⟩

/-- The fingerprint of the C9 commit. -/
def c9_cid : String := by_path hash0 stageRoot [("f", "x")]

/-- The state after the first C9 commit. -/
def c9_s1 : RepoState :=
  ⟨[("f", "x")], [("f", "x")], [(c9_cid, [("f", "x")])],
   [(c9_cid, ⟨["None"], "a"⟩)],
   some ["HEAD=" ++ c9_cid, "master=" ++ c9_cid], "master"⟩

/-- The parent map of the C4 scenario: H1 → H2 → H3 on master, H4 branched
off H2. -/
def c4_pm : List (String × List String) :=
  [("H1", ["None"]), ("H2", ["H1"]), ("H3", ["H2"]), ("H4", ["H2"])]

/-- The ancestor trace built from H3 over `c4_pm`. -/
def c4_t1 : List (String × List String) :=
  [("H3", ["H2"]), ("H2", ["H1"]), ("H1", ["None"])]

/-- The ancestor trace built from H4 over `c4_pm`. -/
def c4_t2 : List (String × List String) :=
  [("H4", ["H2"]), ("H2", ["H1"]), ("H1", ["None"])]

/-- A clean one-commit state for the C10 witness. -/
def c10_s : RepoState :=
  ⟨[("f", "x")], [("f", "x")], [("c1", [("f", "x")])],
   [("c1", ⟨["None"], "m"⟩)], some ["HEAD=c1", "master=c1"], "master"⟩

end Wit

namespace Wit

/-! ## Theorems -/

/-- C1: the claim that `Hashing.by_path` depends only on the set of
(relative path, content) pairs is FALSE on the code: the zip archive it
hashes stores the walk-supplied full path of every file, so the byte stream
(and hence the BLAKE2b digest) differs between two trees at the absolute
roots /a and /b holding the identical single file f.txt ↦ "x", and it also
differs between the two enumeration orders of one unchanged tree at /a
holding a.txt ↦ "1" and b.txt ↦ "2" even though the entry sets coincide.
The digest inequalities are exhibited on the stand-in digest after the
streams are shown unequal. -/
theorem C1_absolute_path_and_order_dependence :
    (zipStream (walkEntries "/a" [("f.txt", "x")]) ≠
      zipStream (walkEntries "/b" [("f.txt", "x")]) ∧
     by_path hash0 "/a" [("f.txt", "x")] ≠ by_path hash0 "/b" [("f.txt", "x")]) ∧
    (zipStream (walkEntries "/a" [("a.txt", "1"), ("b.txt", "2")]) ≠
      zipStream (walkEntries "/a" [("b.txt", "2"), ("a.txt", "1")]) ∧
     by_path hash0 "/a" [("a.txt", "1"), ("b.txt", "2")] ≠
      by_path hash0 "/a" [("b.txt", "2"), ("a.txt", "1")] ∧
     ([("a.txt", "1"), ("b.txt", "2")] : List (String × String)).Perm
       [("b.txt", "2"), ("a.txt", "1")]) := by
  exact ⟨⟨by decide, by decide⟩, by decide, by decide, by decide⟩

/-- C2: the claimed conflict condition for `both_untracked` is violated by
the code: with two untracked-on-both-sides files scanned in the order
[f1, f2], where f1 has equal contents on the two sides and f2 differs
byte-for-byte ("y" versus "z"), `compare_changed_files_by_lines` (no
ancestor) returns True — it returns after examining only the first file —
so the merge proceeds instead of reporting the conflict the claim
requires. -/
theorem C2_untracked_conflict_check_stops_after_first_file :
    compare_changed_files_by_lines
        [("f1", "a"), ("f2", "y")] [("f1", "a"), ("f2", "z")] [] false
        ["f1", "f2"] = some true ∧
    lookupD [("f1", "a"), ("f2", "y")] "f2" "" ≠
      lookupD [("f1", "a"), ("f2", "z")] "f2" "" := by
  exact ⟨rfl, by decide⟩

/-- C3: for a path in `both_changed` whose base, HEAD and other versions
give the other side no more lines than either of the base and HEAD sides,
`file_after_merge` succeeds and produces, at each index of the other side's
lines, the other-side line when it differs from the base line and the HEAD
(current) line otherwise, each terminated by a newline, followed by the
HEAD side's trailing lines (those beyond the other side's length) joined by
newlines. -/
theorem C3_file_after_merge_linewise (firstC secondC ancC : String)
    (h1 : (pySplitlines firstC).length ≤ (pySplitlines secondC).length)
    (h2 : (pySplitlines firstC).length ≤ (pySplitlines ancC).length) :
    ∃ r, file_after_merge firstC secondC ancC = some r ∧
      r.data =
        ((zip3With (fun f s a => (if f ≠ a then f else s) ++ "\n")
            (pySplitlines firstC) (pySplitlines secondC)
            (pySplitlines ancC)).map String.data).flatten ++
          (String.intercalate "\n"
            ((pySplitlines secondC).drop (pySplitlines firstC).length)).data := by
  unfold file_after_merge
  generalize pySplitlines firstC = fl at h1 h2
  generalize pySplitlines secondC = sl at h1
  generalize pySplitlines ancC = al at h2
  induction fl generalizing sl al with
  | nil =>
    exact ⟨String.intercalate "\n" sl, rfl, by simp [zip3With]⟩
  | cons f fs ih =>
    match sl, al with
    | [], _ => simp at h1
    | _ :: _, [] => simp at h2
    | s :: ss, a :: la =>
      have h1' : fs.length ≤ ss.length := by simpa using h1
      have h2' : fs.length ≤ la.length := by simpa using h2
      obtain ⟨r0, hr0, hdata⟩ := ih ss h1' la h2'
      refine ⟨(if f != a then f else s) ++ "\n" ++ r0, ?_, ?_⟩
      · simp only [mergeScan, hr0]
      · simp only [zip3With, List.map_cons, List.flatten_cons, List.drop_succ_cons]
        rw [String.data_append, String.data_append, hdata]
        by_cases hfa : f = a
        · simp [hfa, String.data_append]
        · simp [hfa, bne_iff_ne, String.data_append]

/-- Witness for C3 at the claim's own example: base lines ["a","b"],
current ["a","b"], other ["a","z"]; the merged content is "a\nz\n", whose
lines are ["a","z"]. -/
theorem C3_file_after_merge_linewise_witness :
    (pySplitlines "a\nz\n").length ≤ (pySplitlines "a\nb\n").length ∧
    ∃ r, file_after_merge "a\nz\n" "a\nb\n" "a\nb\n" = some r ∧
      r.data =
        ((zip3With (fun f s a => (if f ≠ a then f else s) ++ "\n")
            (pySplitlines "a\nz\n") (pySplitlines "a\nb\n")
            (pySplitlines "a\nb\n")).map String.data).flatten ++
          (String.intercalate "\n"
            ((pySplitlines "a\nb\n").drop (pySplitlines "a\nz\n").length)).data := by
  exact ⟨by decide,
    C3_file_after_merge_linewise "a\nz\n" "a\nb\n" "a\nb\n" (by decide) (by decide)⟩

/-- The ordered-dict scan of `lowest_common_ancestor_dicts` is the first key
of the first dict that is a key of the second. -/
theorem lca_eq_find (d1 d2 : List (String × List String)) :
    lowest_common_ancestor_dicts d1 d2 =
      (d1.map Prod.fst).find? (fun k => (d2.map Prod.fst).contains k) := by
  induction d1 with
  | nil => rfl
  | cons kv rest ih =>
    unfold lowest_common_ancestor_dicts
    rw [List.map_cons]
    by_cases hc : ((d2.map Prod.fst).contains kv.1) = true
    · rw [if_pos hc, List.find?_cons_of_pos _ hc]
    · rw [if_neg hc, ih, List.find?_cons_of_neg _ hc]

/-- C4: whenever both ancestor traces are built, the merge base returned by
`get_lowest_common_ancestor` is the first fingerprint in the HEAD side's
trace insertion order that also appears in the other side's trace; and in
the concrete scenario H1 → H2 → H3 with branch commit H4 (parent H2), the
merge base of (H3, H4) is H2. -/
theorem C4_lowest_common_ancestor :
    (∀ pm fuel hId oId t1 t2,
      build_path_tree pm fuel [hId] [] = some t1 →
      build_path_tree pm fuel [oId] [] = some t2 →
      get_lowest_common_ancestor pm fuel hId oId =
        some ((t1.map Prod.fst).find?
          (fun k => (t2.map Prod.fst).contains k))) ∧
    get_lowest_common_ancestor c4_pm 10 "H3" "H4" = some (some "H2") := by
  constructor
  · intro pm fuel hId oId t1 t2 h1 h2
    unfold get_lowest_common_ancestor
    rw [h1, h2]
    dsimp only
    rw [lca_eq_find]
  · rfl

/-- Witness for C4: the two traces of the scenario are H3,H2,H1 and
H4,H2,H1 in insertion order, and the merge base is the first-common-key
scan over them. -/
theorem C4_lowest_common_ancestor_witness :
    get_lowest_common_ancestor c4_pm 10 "H3" "H4" =
      some ((c4_t1.map Prod.fst).find?
        (fun k => (c4_t2.map Prod.fst).contains k)) :=
  C4_lowest_common_ancestor.1 c4_pm 10 "H3" "H4" c4_t1 c4_t2 rfl rfl

/-- C5: with a resolvable HEAD, checkout is refused — returning the
unchanged state together with the warning listing the changed paths followed
by the changes to be committed — exactly when the working-tree changed list
or the changes-to-be-committed list is non-empty; when both are empty it is
never refused (untracked files alone do not block it). -/
theorem C5_checkout_dirty_guard (hash : List Nat → String) (target : String)
    (s : RepoState) (lines : List String) (lastId : String)
    (hrefs : s.refs = some lines)
    (hlast : get_commit_id (some lines) "HEAD=" = some lastId) :
    (((working_tree_status hash s).1 ≠ [] ∨
        changes_to_be_committed hash s lastId ≠ []) →
      checkout hash target s =
        some (s, CheckoutResult.blocked
          ((working_tree_status hash s).1 ++
            changes_to_be_committed hash s lastId))) ∧
    ((working_tree_status hash s).1 = [] →
      changes_to_be_committed hash s lastId = [] →
      ∀ s2 ps, checkout hash target s ≠
        some (s2, CheckoutResult.blocked ps)) := by
  constructor
  · intro hd
    unfold checkout
    rw [hrefs]
    dsimp only
    rw [hlast]
    dsimp only
    rw [if_pos hd]
  · intro h1 h2 s2 ps heq
    unfold checkout at heq
    rw [hrefs] at heq
    dsimp only at heq
    rw [hlast] at heq
    dsimp only at heq
    rw [if_neg (by simp [h1, h2])] at heq
    split at heq
    · exact Option.noConfusion heq
    · split at heq
      · exact Option.noConfusion heq
      · injection heq with heq2
        exact CheckoutResult.noConfusion (congrArg Prod.snd heq2)

/-- Witness for C5 at a concrete dirty state: `f` is staged as `x` but the
working copy holds `y`, so checkout is refused with the unchanged state and
the offending path list. -/
theorem C5_checkout_dirty_guard_witness :
    checkout hash0 "tgt" c5_s =
      some (c5_s, CheckoutResult.blocked
        ((working_tree_status hash0 c5_s).1 ++
          changes_to_be_committed hash0 c5_s "c1")) :=
  (C5_checkout_dirty_guard hash0 "tgt" c5_s ["HEAD=c1", "master=c1"] "c1"
    rfl rfl).1 (Or.inl (by decide))

/-- Overwriting a path makes its lookup yield the new content. -/
theorem lookupD_upsert_self (w : List (String × String)) (k v d : String) :
    lookupD (upsert w k v) k d = v := by
  induction w with
  | nil => simp [upsert, lookupD]
  | cons pc rest ih =>
    by_cases h : (pc.1 == k) = true
    · simp [upsert, h, lookupD]
    · simp only [upsert, h]
      rw [if_neg (by simp [h])]
      simpa [lookupD, List.find?, h] using ih

/-- Overwriting one path leaves every other path's lookup unchanged. -/
theorem lookupD_upsert_other (w : List (String × String)) (k v p d : String)
    (h : p ≠ k) :
    lookupD (upsert w k v) p d = lookupD w p d := by
  have hkp : (k == p) = false := beq_eq_false_iff_ne.2 (Ne.symm h)
  induction w with
  | nil => simp [upsert, lookupD, List.find?, hkp]
  | cons pc rest ih =>
    by_cases hk : (pc.1 == k) = true
    · have hp : (pc.1 == p) = false := by
        have he : pc.1 = k := beq_iff_eq.1 hk
        exact beq_eq_false_iff_ne.2 (he ▸ Ne.symm h)
      simp [upsert, hk, lookupD, List.find?, hp, hkp]
    · by_cases hp : (pc.1 == p) = true
      · simp [upsert, hk, lookupD, List.find?, hp]
      · have hp2 : (pc.1 == p) = false := by
          simpa using hp
        simp only [upsert, hk]
        rw [if_neg (by simp [hk])]
        simpa [lookupD, List.find?, hp2] using ih

/-- Copying a snapshot over a listing leaves paths outside the snapshot
untouched. -/
theorem copy_tree_lookup_notmem (snap : List (String × String))
    (ign : List String) (w : List (String × String)) (p d : String)
    (h : p ∉ snap.map Prod.fst) :
    lookupD (copy_tree_update snap ign w) p d = lookupD w p d := by
  induction snap generalizing w with
  | nil => rfl
  | cons qc rest ih =>
    have hq : p ≠ qc.1 := by
      intro he
      exact h (by rw [List.map_cons, he]; exact List.mem_cons_self _ _)
    have ht : p ∉ rest.map Prod.fst := by
      intro hm
      exact h (by rw [List.map_cons]; exact List.mem_cons_of_mem _ hm)
    unfold copy_tree_update at *
    rw [List.foldl_cons]
    by_cases hc : (ign.contains (joinWalkRel qc.1)) = true
    · rw [if_pos hc]
      exact ih w ht
    · rw [if_neg hc]
      rw [ih (upsert w qc.1 qc.2) ht]
      exact lookupD_upsert_other w qc.1 qc.2 p d hq

/-- Copying a snapshot with pairwise-distinct paths over a listing makes
every non-ignored snapshot file's lookup yield the snapshot content. -/
theorem copy_tree_lookup_mem (snap : List (String × String))
    (ign : List String) (w : List (String × String)) (p c : String)
    (hnodup : (snap.map Prod.fst).Nodup) (hmem : (p, c) ∈ snap)
    (hig : joinWalkRel p ∉ ign) :
    lookupD (copy_tree_update snap ign w) p "" = c := by
  induction snap generalizing w with
  | nil => cases hmem
  | cons qc rest ih =>
    obtain ⟨q1, q2⟩ := qc
    rw [List.map_cons, List.nodup_cons] at hnodup
    unfold copy_tree_update at *
    rw [List.foldl_cons]
    rcases List.mem_cons.1 hmem with hh | ht
    · injection hh with hq1 hq2
      subst hq1
      subst hq2
      have hcontains : (ign.contains (joinWalkRel p)) ≠ true := by
        simpa [List.elem_iff] using hig
      rw [if_neg hcontains]
      have := copy_tree_lookup_notmem rest ign (upsert w p c) p "" hnodup.1
      unfold copy_tree_update at this
      rw [this]
      exact lookupD_upsert_self w p c ""
    · by_cases hc : (ign.contains (joinWalkRel q1)) = true
      · rw [if_pos hc]
        exact ih w hnodup.2 ht
      · rw [if_neg hc]
        exact ih (upsert w q1 q2) hnodup.2 ht

/-- A snapshot file whose joined form is in the ignore list is skipped: its
destination lookup is unchanged (the snapshot paths being pairwise
distinct). -/
theorem copy_tree_lookup_ignored (snap : List (String × String))
    (ign : List String) (w : List (String × String)) (p c d : String)
    (hnodup : (snap.map Prod.fst).Nodup) (hmem : (p, c) ∈ snap)
    (hig : joinWalkRel p ∈ ign) :
    lookupD (copy_tree_update snap ign w) p d = lookupD w p d := by
  induction snap generalizing w with
  | nil => cases hmem
  | cons qc rest ih =>
    obtain ⟨q1, q2⟩ := qc
    rw [List.map_cons, List.nodup_cons] at hnodup
    unfold copy_tree_update at *
    rw [List.foldl_cons]
    rcases List.mem_cons.1 hmem with hh | ht
    · injection hh with hq1 hq2
      subst hq1
      subst hq2
      have hcontains : (ign.contains (joinWalkRel p)) = true := by
        rw [List.elem_iff]
        exact hig
      rw [if_pos hcontains]
      have := copy_tree_lookup_notmem rest ign w p d hnodup.1
      unfold copy_tree_update at this
      exact this
    · have hp : p ∈ rest.map Prod.fst :=
        List.mem_map.2 ⟨(p, c), ht, rfl⟩
      have hq : p ≠ q1 := by
        intro he
        exact hnodup.1 (he ▸ hp)
      by_cases hc : (ign.contains (joinWalkRel q1)) = true
      · rw [if_pos hc]
        exact ih w hnodup.2 ht
      · rw [if_neg hc]
        rw [ih (upsert w q1 q2) hnodup.2 ht]
        exact lookupD_upsert_other w q1 q2 p d hq

/-- With a `HEAD` line present, `update_references_file` on an existing file
always succeeds and rewrites the head line plus the per-line rule. -/
theorem update_references_some (lines : List String) (a c : String)
    (b : Bool) (h : String)
    (hh : get_commit_id (some lines) "HEAD=" = some h) :
    update_references_file (some lines) a c b =
      some (("HEAD=" ++ c) :: (lines.drop 1).map (fun l =>
        if b && containsStr a l && containsStr h l then a ++ "=" ++ c
        else l)) := by
  unfold update_references_file
  dsimp only
  rw [hh]

/-- C6 (amended): a successful checkout replaces the staging area with the
target snapshot, switches the activated branch when the argument named one,
rewrites the references file (`HEAD` to the target, branch lines under the
`is_branch` rule), and copies the snapshot over the working tree with the
working-tree-versus-stage untracked list as `ignore_files`: a snapshot file
is overwritten (or created) whenever its `os.path.join(rel_path, filename)`
form — the relative path itself inside a subdirectory, `./name` at the top
level — is not in that list, and is left with its pre-checkout working-tree
content when it is; since the untracked entries are bare relative paths,
top-level snapshot files are always overwritten and only untracked files
inside subdirectories are skipped.  Working-tree files outside the snapshot
are untouched. -/
theorem C6_checkout_effects_amended (hash : List Nat → String)
    (target : String) (s : RepoState) (lines : List String)
    (lastId tid : String)
    (hrefs : s.refs = some lines)
    (hlast : get_commit_id (some lines) "HEAD=" = some lastId)
    (hcl1 : (working_tree_status hash s).1 = [])
    (hcl2 : changes_to_be_committed hash s lastId = [])
    (hres : (if ((branch_names lines).drop 1).contains target then
              get_commit_id (some lines) (target ++ "=")
             else some target) = some tid)
    (hnodup : ((lookupSnap s.images tid).map Prod.fst).Nodup) :
    ∃ s2, checkout hash target s = some (s2, CheckoutResult.ok) ∧
      s2.stage = lookupSnap s.images tid ∧
      s2.activated = (if ((branch_names lines).drop 1).contains target then
        target else s.activated) ∧
      s2.refs = some (("HEAD=" ++ tid) :: (lines.drop 1).map (fun l =>
        if ((branch_names lines).drop 1).contains target &&
            containsStr (if ((branch_names lines).drop 1).contains target
              then target else s.activated) l && containsStr lastId l then
          (if ((branch_names lines).drop 1).contains target then target
           else s.activated) ++ "=" ++ tid
        else l)) ∧
      (∀ p c, (p, c) ∈ lookupSnap s.images tid →
        joinWalkRel p ∉ (working_tree_status hash s).2 →
        lookupD s2.working p "" = c) ∧
      (∀ p c d, (p, c) ∈ lookupSnap s.images tid →
        joinWalkRel p ∈ (working_tree_status hash s).2 →
        lookupD s2.working p d = lookupD s.working p d) ∧
      (∀ p d, p ∉ (lookupSnap s.images tid).map Prod.fst →
        lookupD s2.working p d = lookupD s.working p d) := by
  unfold checkout
  rw [hrefs]
  dsimp only
  rw [hlast]
  dsimp only
  rw [if_neg (by simp [hcl1, hcl2])]
  rw [hres]
  dsimp only
  rw [update_references_some lines _ tid _ lastId hlast]
  dsimp only
  refine ⟨_, rfl, rfl, rfl, rfl, ?_, ?_, ?_⟩
  · intro p c hmem hig
    exact copy_tree_lookup_mem _ _ _ p c hnodup hmem hig
  · intro p c d hmem hig
    exact copy_tree_lookup_ignored _ _ _ p c d hnodup hmem hig
  · intro p d hnot
    exact copy_tree_lookup_notmem _ _ _ p d hnot

/-- Witness for C6 at a concrete clean state: checking out the raw
fingerprint c0 succeeds, replaces the stage with c0's snapshot, and
overwrites the top-level snapshot file f (whose joined form ./f is not
among the untracked entries) with the snapshot content old. -/
theorem C6_checkout_effects_amended_witness :
    ∃ s2, checkout hash0 "c0" c6w_s = some (s2, CheckoutResult.ok) ∧
      s2.stage = lookupSnap c6w_s.images "c0" ∧
      lookupD s2.working "f" "" = "old" := by
  obtain ⟨s2, h1, h2, _, _, hmem, _, _⟩ :=
    C6_checkout_effects_amended hash0 "c0" c6w_s ["HEAD=c1", "master=c1"]
      "c1" "c0" rfl rfl (by decide) (by decide) (by decide) (by decide)
  exact ⟨s2, h1, h2, hmem "f" "old" (by decide) (by decide)⟩

/-- C6: the claim that EVERY working-tree file present in the target
snapshot is overwritten with the snapshot content is FALSE on the code:
`checkout` passes the working-tree-versus-stage untracked list as
`ignore_files` to `copy_tree`, whose join of `rel_path` and the filename
equals the bare relative path for files inside subdirectories, so the
snapshot file `sub/f` (content old) is skipped because `sub/f` is
untracked, and after the successful checkout the working copy of `sub/f`
still holds its pre-checkout content new. -/
theorem C6_untracked_snapshot_file_not_overwritten :
    (checkout hash0 "c0" c6_s).map
        (fun r => (lookupD r.1.working "sub/f" "", r.2)) =
      some ("new", CheckoutResult.ok) ∧
    ("sub/f", "old") ∈ lookupSnap c6_s.images "c0" ∧
    "sub/f" ∈ (working_tree_status hash0 c6_s).2 ∧
    joinWalkRel "sub/f" = "sub/f" ∧
    ("new" : String) ≠ "old" := by
  exact ⟨rfl, by decide, by decide, by decide, by decide⟩

/-- C7 (amended): on the first commit the references file is created with
HEAD and master bound to the new fingerprint.  On a subsequent commit —
normal or branch-override alike, since the call site always passes
`is_branch = True` — HEAD is rewritten and so is every remaining line that
contains the activated branch's name and the previous HEAD as substrings;
on a well-formed file, where that substring test holds exactly for lines
whose branch name equals the activated branch and whose binding equals the
previous HEAD, this rewrites precisely the activated branch's line when its
prior binding equals the previous HEAD and passes every other line through
unchanged. -/
theorem C7_update_references_amended (lines : List String)
    (branchPairs : List (String × String)) (activated h cid : String)
    (hlines : lines = ("HEAD=" ++ h) :: branchPairs.map lineOf)
    (hhead : get_commit_id (some lines) "HEAD=" = some h)
    (hiff : ∀ nf ∈ branchPairs,
      (containsStr activated (lineOf nf) && containsStr h (lineOf nf)) =
        (nf.1 == activated && nf.2 == h)) :
    update_references_file none activated cid true =
      some ["HEAD=" ++ cid, "master=" ++ cid] ∧
    update_references_file (some lines) activated cid true =
      some (("HEAD=" ++ cid) :: branchPairs.map (fun nf =>
        if nf.1 == activated && nf.2 == h then activated ++ "=" ++ cid
        else lineOf nf)) := by
  refine ⟨rfl, ?_⟩
  rw [update_references_some lines activated cid true h hhead]
  subst hlines
  rw [List.drop_succ_cons, List.drop_zero, List.map_map]
  congr 1
  congr 1
  apply List.map_congr_left
  intro nf hnf
  have hc := hiff nf hnf
  simp only [Function.comp_apply, Bool.true_and, hc]

/-- Witness for C7 on a well-formed three-line references file with
activated branch master previously bound to the HEAD h1: the master line is
rewritten to the new fingerprint and the line of the other branch dev passes
through unchanged. -/
theorem C7_update_references_amended_witness :
    update_references_file (some ["HEAD=h1", "dev=k1", "master=h1"])
        "master" "c9" true =
      some (("HEAD=" ++ "c9") ::
        ([("dev", "k1"), ("master", "h1")] : List (String × String)).map
          (fun nf =>
            if nf.1 == "master" && nf.2 == "h1" then "master" ++ "=" ++ "c9"
            else lineOf nf)) :=
  (C7_update_references_amended ["HEAD=h1", "dev=k1", "master=h1"]
    [("dev", "k1"), ("master", "h1")] "master" "h1" "c9" (by decide)
    (by decide) (by decide)).2

/-- C7: the claim that the activated branch's line is rewritten ONLY on a
normal (non-branch-override) commit is FALSE on the code: `commit` never
passes `is_branch`, so a branch-override (merge) commit from the state
HEAD = master = h0 also rewrites the master line to the new fingerprint,
whereas the rule stated by the claim (`record_commit_spec`) would leave
master bound to h0. -/
theorem C7_override_commit_moves_branch :
    (commit hash0 "m" (some "b2") c7_s0).map (fun pr => (pr.1.refs, pr.2)) =
      some (some ["HEAD=" ++ c7_cid, "master=" ++ c7_cid],
        CommitResult.created c7_cid) ∧
    record_commit_spec [("master", "h0")] "master" "h0" c7_cid true =
      ["HEAD=" ++ c7_cid, "master=" ++ "h0"] ∧
    "master=" ++ c7_cid ≠ "master=" ++ "h0" := by
  refine ⟨rfl, rfl, by decide⟩

/-- C8 (amended): whenever `update_references_file` rewrites lines of an
existing references file in a commit-style write, the HEAD line and any
rewritten activated-branch line are written together in the same output
with the same new fingerprint — every output line is either an unchanged
input line, the new HEAD line, or the activated branch bound to the same
new fingerprint.  (The full claimed invariant is refuted by
`C8_detached_head_counterexample`: checkout of a raw commit fingerprint
moves HEAD alone.) -/
theorem C8_head_and_branch_written_together (lines : List String)
    (act cid h : String) (out : List String)
    (hhead : get_commit_id (some lines) "HEAD=" = some h)
    (hupd : update_references_file (some lines) act cid true = some out) :
    ("HEAD=" ++ cid) ∈ out ∧
    ∀ l ∈ out, l ∈ lines.drop 1 ∨ l = "HEAD=" ++ cid ∨
      l = act ++ "=" ++ cid := by
  rw [update_references_some lines act cid true h hhead] at hupd
  injection hupd with hout
  subst hout
  constructor
  · exact List.mem_cons_self _ _
  · intro l hl
    rcases List.mem_cons.1 hl with h1 | h2
    · exact Or.inr (Or.inl h1)
    · obtain ⟨x, hx, hxe⟩ := List.mem_map.1 h2
      by_cases hc : (true && containsStr act x && containsStr h x) = true
      · rw [if_pos hc] at hxe
        exact Or.inr (Or.inr hxe.symm)
      · rw [if_neg hc] at hxe
        exact Or.inl (hxe ▸ hx)

/-- Witness for C8's amended statement on a two-line references file. -/
theorem C8_head_and_branch_written_together_witness :
    ("HEAD=" ++ "c2") ∈ ["HEAD=c2", "master=c2"] ∧
    ∀ l ∈ ["HEAD=c2", "master=c2"],
      l ∈ ["HEAD=c1", "master=c1"].drop 1 ∨ l = "HEAD=" ++ "c2" ∨
        l = "master" ++ "=" ++ "c2" :=
  C8_head_and_branch_written_together ["HEAD=c1", "master=c1"] "master"
    "c2" "c1" ["HEAD=c2", "master=c2"] rfl rfl

set_option maxRecDepth 4000 in
/-- C8: the claimed invariant (HEAD always equals the activated branch's
binding) is FALSE on the code: the trace init; add f.txt; commit (c1); edit
f.txt; add; commit (c2); checkout c1 — checkout of a raw fingerprint, which
updates the references file with `is_branch = False` — reaches a state
whose activated branch is master with HEAD bound to c1 while master stays
bound to c2, and c1 ≠ c2. -/
theorem C8_detached_head_counterexample :
    (c8_final.map (fun sf => (sf.activated, sf.refs))) =
      some ("master", some ["HEAD=" ++ c8_c1, "master=" ++ c8_c2]) ∧
    c8_c1 ≠ c8_c2 := by
  exact ⟨by decide, by decide⟩

/-- C9: committing twice with no intervening staging change makes the
second call a duplicate no-op: whatever the first commit returned, the
second returns the state it received unchanged together with the
DuplicateCommit signal for the recomputed fingerprint — no images entry,
no metadata record and no references update. -/
theorem C9_second_commit_is_noop (hash : List Nat → String)
    (msg1 msg2 : String) (b1 b2 : Option String) (s s1 : RepoState)
    (r : CommitResult) (h : commit hash msg1 b1 s = some (s1, r)) :
    commit hash msg2 b2 s1 =
      some (s1, CommitResult.duplicate (by_path hash stageRoot s1.stage)) := by
  unfold commit at h ⊢
  by_cases hc :
      ((s.images.map Prod.fst).contains (by_path hash stageRoot s.stage)) =
        true
  · rw [if_pos hc] at h
    injection h with h2
    have hs : s = s1 := congrArg Prod.fst h2
    subst hs
    rw [if_pos hc]
  · rw [if_neg hc] at h
    dsimp only at h
    revert h
    split
    · intro h
      exact Option.noConfusion h
    · intro h
      injection h with h2
      have hs : _ = s1 := congrArg Prod.fst h2
      subst hs
      dsimp only
      rw [if_pos (by simp)]

/-- Witness for C9: after the concrete first commit from `c9_s` (which
produces `c9_s1`), a second commit returns `c9_s1` unchanged with the
duplicate signal. -/
theorem C9_second_commit_is_noop_witness :
    commit hash0 "b" none c9_s1 =
      some (c9_s1, CommitResult.duplicate (by_path hash0 stageRoot c9_s1.stage)) :=
  C9_second_commit_is_noop hash0 "a" "b" none none c9_s c9_s1
    (CommitResult.created c9_cid) rfl

/-- The untracked side of `compare_two_list_files` is exactly the candidate
paths missing from the baseline, in candidate order. -/
theorem compare_untracked_eq (hash : List Nat → String)
    (aps bps : List (String × String)) :
    (compare_two_list_files hash aps bps).2 =
      (aps.filter (fun pc => !((bps.map Prod.fst).contains pc.1))).map
        Prod.fst := by
  induction aps with
  | nil => rfl
  | cons pc rest ih =>
    unfold compare_two_list_files
    rw [List.filter_cons]
    by_cases hc : ((bps.map Prod.fst).contains pc.1) = true
    · rw [if_pos hc]
      have hneg : ¬ ((!(bps.map Prod.fst).contains pc.1) = true) := by
        rw [hc]
        decide
      rw [if_neg hneg]
      by_cases hd : (by_content hash pc.2 !=
          by_content hash (lookupD bps pc.1 "")) = true
      · rw [if_pos hd]
        exact ih
      · rw [if_neg hd]
        exact ih
    · rw [if_neg hc]
      have hpos : (!(bps.map Prod.fst).contains pc.1) = true := by
        cases hb : ((bps.map Prod.fst).contains pc.1) with
        | true => exact absurd hb hc
        | false => rfl
      rw [if_pos hpos, List.map_cons]
      show pc.1 :: (compare_two_list_files hash rest bps).2 = _
      rw [ih]

/-- C10: the working-tree enumeration walks the `.wit` metadata directory
like any other (nothing excludes it), so — whenever the staging area does
not itself mirror any `.wit` path — every file under `.wit` (the
staging-area mirror, every image snapshot file, every metadata record,
references.txt and activated.txt) appears in the untracked list of the
working-tree-versus-stage comparison that `status` reports. -/
theorem C10_wit_dir_reported_untracked (hash : List Nat → String)
    (s : RepoState) (lastId : String)
    (_hlast : get_commit_id s.refs "HEAD=" = some lastId)
    (hstage : ∀ pc ∈ s.stage, ¬ ((witPairs s).map Prod.fst).contains pc.1) :
    ∀ pc ∈ witPairs s, pc.1 ∈ status_untracked hash s := by
  intro pc hpc
  unfold status_untracked working_tree_status
  rw [compare_untracked_eq]
  apply List.mem_map.2
  refine ⟨pc, List.mem_filter.2 ⟨?_, ?_⟩, rfl⟩
  · unfold fullRootPairs
    exact List.mem_append.2 (Or.inr hpc)
  · have hnot : pc.1 ∉ s.stage.map Prod.fst := by
      intro hmem
      obtain ⟨qc, hqc, hq⟩ := List.mem_map.1 hmem
      apply hstage qc hqc
      rw [List.elem_iff]
      rw [hq]
      exact List.mem_map.2 ⟨pc, hpc, rfl⟩
    simpa [List.elem_iff] using hnot

/-- Witness for C10: in a concrete clean one-commit repository the
references file itself is listed untracked by status. -/
theorem C10_wit_dir_reported_untracked_witness :
    ".wit/references.txt" ∈ status_untracked hash0 c10_s := by
  have hmain := C10_wit_dir_reported_untracked hash0 c10_s "c1" rfl (by decide)
  exact hmain (".wit/references.txt", joinRefLines ["HEAD=c1", "master=c1"])
    (by decide)

end Wit
